import Mathlib

/-!
Shallow embedding of the acquisition / writer / housekeeping pipeline of
`usrp_rx_to_file_thread.py` (repository `ajheller/usrp`).

Conventions of the embedding:
* Python floats (sample rates, durations, UHD `TimeSpec` timestamps) are
  modelled as exact rationals `ℚ`; Python `int(...)` truncation is
  `int_trunc`, `np.ceil` is `Int.ceil`.
* The accountant's global state (`had_an_overflow`, `last_overflow` and the
  statistic counters, lines 144-152 of the source) is an explicit record
  `AccState` threaded through `process_metadata`.
* `rx_index_queue = mp.Queue()` (line 286) is a FIFO list: `put` appends at
  the tail, the writer pops at the head.  The queue is created with no
  `maxsize` argument, so `queue_put` is total and always appends.
* The writer process `rx_queue_writer` (lines 325-355) is modelled by
  `writer_drain`: `flags k` is the value of `writer_running.is_set()`
  sampled at the k-th iteration of the `while` loop, and the result is the
  list of queue entries whose slices were copied into the `samples` memmap.
* The memmap `samples` and the ring pool `rx_queue` are total functions from
  indices to sample values; a slice assignment is a pointwise overwrite on
  the written interval (`writer_write`).
* `INIT_DELAY`, referenced on line 190 in the `late` branch of
  `process_metadata`, is bound nowhere in the module; the environment entry
  for it is therefore `Option.none`, and evaluating the branch produces a
  Python `NameError`, modelled by the `Option PyError` component of the
  result of `process_metadata`.
-/

namespace USRP

/- ### Device status metadata (`uhd.types.RXMetadata`) -/

/-- Error classification carried by per-buffer RX metadata
(`uhd.types.RXMetadataErrorCode`); `other` stands for every code that is
neither `none`, `overflow`, `late` nor `timeout`. -/
inductive RXErrorCode
  | none
  | overflow
  | late
  | timeout
  | other
deriving DecidableEq

/-- Per-buffer device status: error code, timestamp (seconds, exact) and the
out-of-sequence flag. -/
structure RXMetadata where
  error_code : RXErrorCode
  time_spec : ℚ
  out_of_sequence : Bool

/- ### Loss/Overflow accountant state (source lines 144-152) -/

/-- The accountant's global variables: overflow-episode tracking flag and
timestamp, plus the statistic counters. -/
structure AccState where
  had_an_overflow : Bool
  last_overflow : ℚ
  num_rx_dropped : ℤ
  num_rx_overruns : ℕ
  num_rx_seqerr : ℕ
  num_rx_timeouts : ℕ
  num_rx_late : ℕ
deriving DecidableEq

/-- Module-level initial accountant state (lines 144-152):
`had_an_overflow = False`, `last_overflow = TimeSpec(0)`, all counters 0. -/
def acc_init : AccState := ⟨false, 0, 0, 0, 0, 0, 0⟩

/-- `TimeSpec.to_ticks`: convert an elapsed time (seconds) to sample ticks at
the given rate. -/
def time_spec_to_ticks (t rate : ℚ) : ℤ := round (t * rate)

/-- Python exception raised by evaluating an unbound global name. -/
inductive PyError
  | nameError
deriving DecidableEq

/-- The module binding for the global name `INIT_DELAY` used on line 190.
No statement of `usrp_rx_to_file_thread.py` assigns `INIT_DELAY`, so the
name is unbound: looking it up raises `NameError`. -/
def INIT_DELAY : Option ℚ := Option.none

/-- `process_metadata(usrp, metadata)` (source lines 155-199), with the
sample rate `usrp.get_rx_rate()` queried at the start of the call passed as
the explicit argument `rate`.  Returns the updated global state together
with the exception raised by the call, if any.  The `late` branch evaluates
`INIT_DELAY` after incrementing `num_rx_late`, and raises `NameError`
because that name is unbound. -/
def process_metadata (rate : ℚ) (st : AccState) (md : RXMetadata) :
    AccState × Option PyError :=
  if md.error_code = RXErrorCode.none then
    if st.had_an_overflow then
      ({ st with
          had_an_overflow := false,
          num_rx_dropped :=
            st.num_rx_dropped +
              time_spec_to_ticks (md.time_spec - st.last_overflow) rate },
        Option.none)
    else
      (st, Option.none)
  else if md.error_code = RXErrorCode.overflow then
    let st1 : AccState :=
      { st with had_an_overflow := true, last_overflow := md.time_spec }
    if md.out_of_sequence then
      ({ st1 with num_rx_seqerr := st1.num_rx_seqerr + 1 }, Option.none)
    else
      ({ st1 with num_rx_overruns := st1.num_rx_overruns + 1 }, Option.none)
  else if md.error_code = RXErrorCode.late then
    match INIT_DELAY with
    | Option.none =>
        ({ st with num_rx_late := st.num_rx_late + 1 }, Option.some PyError.nameError)
    | Option.some _ =>
        ({ st with num_rx_late := st.num_rx_late + 1 }, Option.none)
  else if md.error_code = RXErrorCode.timeout then
    ({ st with num_rx_timeouts := st.num_rx_timeouts + 1 }, Option.none)
  else
    (st, Option.none)

/-- Run `process_metadata` over a scripted sequence of device statuses,
threading the accountant state (the rate is the same for each call). -/
def process_all (rate : ℚ) (st : AccState) (mds : List RXMetadata) : AccState :=
  mds.foldl (fun s md => (process_metadata rate s md).1) st

/- ### Module-level privilege checks (source lines 40-58) -/

/-- Whether module evaluation reaches the acquisition code or terminates. -/
inductive StartupOutcome
  | proceeds
  | exits
deriving DecidableEq

/-- Observable result of the module-level privilege checks. -/
structure StartupResult where
  sched_error_printed : Bool
  seteuid_error_printed : Bool
  outcome : StartupOutcome
deriving DecidableEq

/-- Module-level startup (lines 40-58).  First block: try to switch to
`SCHED_RR` priority 99; a `PermissionError` is printed and the original
scheduler is restored in the `finally` clause.  Second block: try
`os.seteuid(0)`, printing a `PermissionError` on failure.  Finally, if the
effective UID is still nonzero the script calls `exit(...)`.
`can_set_rt_sched` is whether the `sched_setscheduler` call is permitted,
`can_seteuid_root` whether `seteuid(0)` is permitted, and `euid` the
process's effective UID before the `seteuid` attempt. -/
def module_startup (can_set_rt_sched : Bool) (can_seteuid_root : Bool)
    (euid : ℕ) : StartupResult :=
  let sched_error_printed := !can_set_rt_sched
  let seteuid_error_printed := !can_seteuid_root
  let euid_after := if can_seteuid_root then 0 else euid
  if euid_after ≠ 0 then
    ⟨sched_error_printed, seteuid_error_printed, StartupOutcome.exits⟩
  else
    ⟨sched_error_printed, seteuid_error_printed, StartupOutcome.proceeds⟩

/- ### Sizing arithmetic (source lines 237, 254-257, 282-283) -/

/-- Python `int(...)` applied to an exact rational: truncation toward 0. -/
def int_trunc (q : ℚ) : ℤ := if 0 ≤ q then ⌊q⌋ else ⌈q⌉

/-- `num_samps_min = int(sample_rate * args.duration)` (line 237). -/
def num_samps_min (rate dur : ℚ) : ℕ := (int_trunc (rate * dur)).toNat

/-- `num_recv_buffers = int(np.ceil(num_samps_min / len_recv_buffer))`
(line 255): planned sample count rounded up to whole receive buffers. -/
def num_recv_buffers (rate dur : ℚ) (bl : ℕ) : ℕ :=
  (⌈(num_samps_min rate dur : ℚ) / (bl : ℚ)⌉).toNat

/-- `num_samps = num_recv_buffers * len_recv_buffer` (line 257): the shape
of the `samples` memmap. -/
def num_samps (rate dur : ℚ) (bl : ℕ) : ℕ := num_recv_buffers rate dur bl * bl

/-- `rx_queue_size = int(usrp.get_rx_rate() / len_recv_buffer)` (line 283):
the number of slots of the ring buffer pool `rx_queue`. -/
def rx_queue_size (rate : ℚ) (bl : ℕ) : ℕ := (int_trunc (rate / (bl : ℚ))).toNat

/- ### Handoff queue (`rx_index_queue = mp.Queue()`, line 286) -/

/-- `rx_index_queue.put(e)`: `mp.Queue()` is created with no `maxsize`
argument, so the queue is unbounded and `put` always appends at the tail. -/
def queue_put (q : List (ℤ × ℤ)) (e : ℤ × ℤ) : List (ℤ × ℤ) := q ++ [e]

/-- The producer side of the acquisition loop (lines 403-415) run for `n`
cycles with no writer progress: cycle `i` stores into ring slot `i % ps`
(`it.cycle(range(rx_queue_size))`) and puts `(i, i % ps)` on the handoff
queue. -/
def producer_enqueue (ps n : ℕ) : List (ℤ × ℤ) :=
  (List.range n).foldl (fun q i => queue_put q (Int.ofNat i, Int.ofNat (i % ps))) []

/- ### Storage writer (`rx_queue_writer`, source lines 325-355) -/

/-- The writer's `while writer_running.is_set():` loop.  `flags k` is the
value of `writer_running.is_set()` at the k-th iteration; the queue content
is consumed front-first (`rx_index_queue.get(block=True)`).  An entry with
negative absolute index is the sentinel: `if i < 0: break`.  The result is
the list of entries copied into the `samples` memmap, in order.  On an
empty queue `get` blocks, so no further entry is written. -/
def writer_drain (flags : ℕ → Bool) : ℕ → List (ℤ × ℤ) → List (ℤ × ℤ)
  | _, [] => []
  | k, e :: rest =>
    if flags k then
      if e.1 < 0 then []
      else e :: writer_drain flags (k + 1) rest
    else []

/-- Observable result of one run of the writer process: which entries were
written, and whether the final `samples.flush()` (line 355) ran. -/
structure WriterRun where
  written : List (ℤ × ℤ)
  flushed : Bool

/-- `rx_queue_writer` (lines 325-355) applied to a queue history: drain the
queue under the `writer_running` flag schedule, then perform the final
flush, which the function always reaches (it also follows the
`KeyboardInterrupt` handler). -/
def rx_queue_writer (flags : ℕ → Bool) (q : List (ℤ × ℤ)) : WriterRun :=
  ⟨writer_drain flags 0 q, true⟩

/- ### Ring pool and output region contents (lines 284, 340, 412-415) -/

/-- Joint state of the ring buffer pool `rx_queue` (slot index, offset) and
the output memmap `samples` (absolute sample index). -/
structure PipeState (α : Type) where
  rx_queue : ℕ → ℕ → α
  samples : ℕ → α

/-- `rx_queue[ii, :] = recv_buffer[0, :]` (line 414) for cycle `i`:
store the received buffer of cycle `i` into ring slot `i % ps`. -/
def producer_store {α : Type} (ps : ℕ) (recv : ℕ → ℕ → α)
    (rq : ℕ → ℕ → α) (i : ℕ) : ℕ → ℕ → α :=
  fun s j => if s = i % ps then recv i j else rq s j

/-- `samples[i * buffer_size : (i + 1) * buffer_size] = rx_queue[ii, :]`
(line 340): overwrite the slice of the output region belonging to absolute
cycle `i` with the contents of ring slot `ii`. -/
def writer_write {α : Type} (bl : ℕ) (rq : ℕ → ℕ → α)
    (samples : ℕ → α) (i ii : ℕ) : ℕ → α :=
  fun j => if i * bl ≤ j ∧ j < (i + 1) * bl then rq ii (j - i * bl) else samples j

/-- One cycle of a clean run: the producer stores cycle `i` into slot
`i % ps` and puts `(i, i % ps)` on the queue, and the writer consumes that
entry before the next cycle begins (the writer keeps up, so no slot is
overwritten before it is read). -/
def clean_cycle {α : Type} (ps bl : ℕ) (recv : ℕ → ℕ → α)
    (st : PipeState α) (i : ℕ) : PipeState α :=
  let rq := producer_store ps recv st.rx_queue i
  ⟨rq, writer_write bl rq st.samples i (i % ps)⟩

/-- A clean run of `n` acquisition cycles (`tqdm.trange(num_samps //
len_recv_buffer)`, line 404) with buffer contents `recv`, starting from
pipeline state `st0`. -/
def clean_run {α : Type} (ps bl : ℕ) (recv : ℕ → ℕ → α)
    (st0 : PipeState α) (n : ℕ) : PipeState α :=
  (List.range n).foldl (clean_cycle ps bl recv) st0

/- ### Helper lemmas -/

theorem queue_put_length (q : List (ℤ × ℤ)) (e : ℤ × ℤ) :
    (queue_put q e).length = q.length + 1 := by
  simp [queue_put]

theorem producer_enqueue_length (ps n : ℕ) :
    (producer_enqueue ps n).length = n := by
  suffices h : ∀ (l : List ℕ) (q : List (ℤ × ℤ)),
      (l.foldl (fun q i => queue_put q (Int.ofNat i, Int.ofNat (i % ps))) q).length
        = q.length + l.length by
    simpa [producer_enqueue] using h (List.range n) []
  intro l
  induction l with
  | nil => intro q; simp
  | cons a t ih =>
      intro q
      simp only [List.foldl_cons, ih, queue_put_length, List.length_cons]
      omega

theorem writer_drain_flags_true (flags : ℕ → Bool) (hf : ∀ k, flags k = true) :
    ∀ (entries : List (ℤ × ℤ)) (k : ℕ), (∀ e ∈ entries, 0 ≤ e.1) →
      writer_drain flags k (entries ++ [(-1, -1)]) = entries := by
  intro entries
  induction entries with
  | nil =>
      intro k _
      simp [writer_drain, hf k]
  | cons e t ih =>
      intro k h
      have he : ¬ e.1 < 0 := not_lt.mpr (h e (List.mem_cons_self e t))
      have ht := ih (k + 1) (fun x hx => h x (List.mem_cons_of_mem e hx))
      simp [writer_drain, hf k, he, ht]

theorem writer_drain_cleared (stop : ℕ) :
    ∀ (entries : List (ℤ × ℤ)) (k : ℕ), (∀ e ∈ entries, 0 ≤ e.1) →
      writer_drain (fun j => decide (j < stop)) k (entries ++ [(-1, -1)])
        = entries.take (stop - k) := by
  intro entries
  induction entries with
  | nil =>
      intro k _
      by_cases hk : k < stop <;> simp [writer_drain, hk]
  | cons e t ih =>
      intro k h
      have he : ¬ e.1 < 0 := not_lt.mpr (h e (List.mem_cons_self e t))
      have ht := ih (k + 1) (fun x hx => h x (List.mem_cons_of_mem e hx))
      by_cases hk : k < stop
      · have hs : stop - k = (stop - (k + 1)) + 1 := by omega
        simp [writer_drain, hk, he, ht, hs]
      · have hs : stop - k = 0 := by omega
        simp [writer_drain, hk, hs]

theorem clean_run_succ {α : Type} (ps bl : ℕ) (recv : ℕ → ℕ → α)
    (st0 : PipeState α) (n : ℕ) :
    clean_run ps bl recv st0 (n + 1)
      = clean_cycle ps bl recv (clean_run ps bl recv st0 n) n := by
  simp [clean_run, List.range_succ]

theorem clean_run_samples {α : Type} (ps bl : ℕ) (recv : ℕ → ℕ → α)
    (st0 : PipeState α) :
    ∀ n i j, i < n → j < bl →
      (clean_run ps bl recv st0 n).samples (i * bl + j) = recv i j := by
  intro n
  induction n with
  | zero => intro i j hi _; exact absurd hi (Nat.not_lt_zero i)
  | succ n ih =>
      intro i j hi hj
      rw [clean_run_succ]
      simp only [clean_cycle, writer_write, producer_store]
      rcases Nat.lt_succ_iff_lt_or_eq.mp hi with hlt | heq
      · have hpos : i * bl + j < n * bl := by
          have h1 : i * bl + j < (i + 1) * bl := by
            have h2 := Nat.add_lt_add_left hj (i * bl)
            calc i * bl + j < i * bl + bl := h2
              _ = (i + 1) * bl := by ring
          exact lt_of_lt_of_le h1 (Nat.mul_le_mul_right bl hlt)
        rw [if_neg (fun hand => absurd hand.1 (Nat.not_le.mpr hpos))]
        exact ih i j hlt hj
      · subst heq
        have hin : i * bl ≤ i * bl + j ∧ i * bl + j < (i + 1) * bl := by
          refine ⟨Nat.le_add_right _ _, ?_⟩
          calc i * bl + j < i * bl + bl := Nat.add_lt_add_left hj (i * bl)
            _ = (i + 1) * bl := by ring
        rw [if_pos hin, Nat.add_sub_cancel_left]
        simp

theorem num_samps_eq_mul (rate dur : ℚ) (bl : ℕ) :
    num_samps rate dur bl = num_recv_buffers rate dur bl * bl := rfl

theorem num_samps_div (rate dur : ℚ) (bl : ℕ) (hbl : 0 < bl) :
    num_samps rate dur bl / bl = num_recv_buffers rate dur bl :=
  Nat.mul_div_cancel _ hbl

theorem num_samps_bounds (rate dur : ℚ) (bl : ℕ) (hbl : 0 < bl) :
    num_samps_min rate dur ≤ num_samps rate dur bl
    ∧ num_samps rate dur bl < num_samps_min rate dur + bl := by
  have hblq : (0 : ℚ) < (bl : ℚ) := by exact_mod_cast hbl
  set m := num_samps_min rate dur with hm
  have hq0 : (0 : ℚ) ≤ (m : ℚ) / (bl : ℚ) := div_nonneg (by positivity) hblq.le
  have hc0 : 0 ≤ ⌈(m : ℚ) / (bl : ℚ)⌉ := Int.ceil_nonneg hq0
  have h1 : (m : ℚ) / (bl : ℚ) ≤ (⌈(m : ℚ) / (bl : ℚ)⌉ : ℚ) := Int.le_ceil _
  have h2 : ((⌈(m : ℚ) / (bl : ℚ)⌉ : ℚ)) < (m : ℚ) / (bl : ℚ) + 1 :=
    Int.ceil_lt_add_one _
  have e1 : (m : ℚ) ≤ (⌈(m : ℚ) / (bl : ℚ)⌉ : ℚ) * (bl : ℚ) := by
    have h3 := mul_le_mul_of_nonneg_right h1 hblq.le
    rwa [div_mul_cancel₀ _ (ne_of_gt hblq)] at h3
  have e2 : ((⌈(m : ℚ) / (bl : ℚ)⌉ : ℚ)) * (bl : ℚ) < (m : ℚ) + (bl : ℚ) := by
    have h3 := mul_lt_mul_of_pos_right h2 hblq
    rwa [add_mul, one_mul, div_mul_cancel₀ _ (ne_of_gt hblq)] at h3
  have hCq : ((⌈(m : ℚ) / (bl : ℚ)⌉.toNat : ℚ)) = (⌈(m : ℚ) / (bl : ℚ)⌉ : ℚ) := by
    exact_mod_cast congrArg (fun z : ℤ => (z : ℚ)) (Int.toNat_of_nonneg hc0)
  constructor
  · show m ≤ num_recv_buffers rate dur bl * bl
    have h4 : (m : ℚ) ≤ ((⌈(m : ℚ) / (bl : ℚ)⌉.toNat : ℚ)) * (bl : ℚ) := by
      rw [hCq]; exact e1
    have h5 : (m : ℚ) ≤ ((⌈(m : ℚ) / (bl : ℚ)⌉.toNat * bl : ℕ) : ℚ) := by
      push_cast
      exact h4
    exact_mod_cast h5
  · show num_recv_buffers rate dur bl * bl < m + bl
    have h4 : ((⌈(m : ℚ) / (bl : ℚ)⌉.toNat : ℚ)) * (bl : ℚ) < (m : ℚ) + (bl : ℚ) := by
      rw [hCq]; exact e2
    have h5 : ((⌈(m : ℚ) / (bl : ℚ)⌉.toNat * bl : ℕ) : ℚ) < ((m + bl : ℕ) : ℚ) := by
      push_cast
      exact h4
    exact_mod_cast h5

/- ### Claim theorems -/

/-- C1 counterexample: with `get_rx_rate() = 400` and
`len_recv_buffer = 100` the pool size `rx_queue_size` is 4, yet after 5
producer cycles with no writer progress the handoff queue holds 5 entries:
`rx_index_queue` is an unbounded `mp.Queue()`, every `put` succeeded, and
the queue size exceeds the claimed `pool_size` bound. -/
theorem c1_queue_exceeds_pool_bound :
    rx_queue_size 400 100 = 4
    ∧ (producer_enqueue (rx_queue_size 400 100) 5).length = 5
    ∧ ¬ ((producer_enqueue (rx_queue_size 400 100) 5).length
          ≤ rx_queue_size 400 100) := by
  have hfloor : ⌊(400 : ℚ) / ((100 : ℕ) : ℚ)⌋ = 4 := by
    rw [show (((100 : ℕ) : ℚ)) = 100 by norm_num]
    rw [Int.floor_eq_iff]
    norm_num
  have h : rx_queue_size 400 100 = 4 := by
    unfold rx_queue_size int_trunc
    rw [if_pos (by positivity), hfloor]
    rfl
  refine ⟨h, producer_enqueue_length _ 5, ?_⟩
  rw [producer_enqueue_length, h]
  norm_num

/-- C1 amended: the handoff queue `rx_index_queue` is created as
`mp.Queue()` with no `maxsize`, so it is unbounded: `put` always appends
one entry (it never blocks and never overwrites), and after `n` producer
cycles with no writer progress the queue holds exactly `n` entries — which
exceeds `rx_queue_size` whenever `n` does.  The only bound-related behavior
is the writer's warning when the depth exceeds half of `rx_queue_size`. -/
theorem c1_amended_queue_unbounded (ps n : ℕ) (q : List (ℤ × ℤ))
    (e : ℤ × ℤ) :
    (queue_put q e).length = q.length + 1
    ∧ (producer_enqueue ps n).length = n :=
  ⟨queue_put_length q e, producer_enqueue_length ps n⟩

/-- C2 counterexample: with `sample_rate = 100.5`, `duration = 1`,
`buffer_length = 100`, the claimed cycle count
`ceil(sample_rate * duration / buffer_length)` is 2 (200 samples), but the
code truncates first (`num_samps_min = int(100.5) = 100`) and sizes the
output region `samples` to `num_samps = 100` samples. -/
theorem c2_cycle_count_counterexample :
    num_samps (201 / 2) 1 100 = 100
    ∧ ⌈((201 : ℚ) / 2 * 1) / 100⌉ = 2
    ∧ num_samps (201 / 2) 1 100 ≠ (⌈((201 : ℚ) / 2 * 1) / 100⌉).toNat * 100 := by
  have hfl : ⌊(201 : ℚ) / 2 * 1⌋ = 100 := by
    rw [Int.floor_eq_iff]
    norm_num
  have hmin : num_samps_min (201 / 2) 1 = 100 := by
    unfold num_samps_min int_trunc
    rw [if_pos (by norm_num), hfl]
    rfl
  have hceil1 : ⌈((100 : ℕ) : ℚ) / ((100 : ℕ) : ℚ)⌉ = 1 := by
    rw [show (((100 : ℕ) : ℚ)) = 100 by norm_num]
    rw [Int.ceil_eq_iff]
    norm_num
  have h1 : num_samps (201 / 2) 1 100 = 100 := by
    unfold num_samps num_recv_buffers
    rw [hmin, hceil1]
    rfl
  have hceil2 : ⌈((201 : ℚ) / 2 * 1) / 100⌉ = 2 := by
    rw [Int.ceil_eq_iff]
    norm_num
  refine ⟨h1, hceil2, ?_⟩
  rw [h1, hceil2]
  decide

/-- C2 amended: the output region holds `cycle_count * buffer_length`
samples where `cycle_count = num_recv_buffers =
ceil(int(sample_rate * duration) / buffer_length)` — the planned total is
truncated to an integer before rounding up to whole buffers (so the region
is the least whole-buffer multiple covering `num_samps_min`) — and after a
clean run of `num_samps // buffer_length` cycles, cycle `i`'s buffer
contents occupy exactly sample indices `[i * bl, (i + 1) * bl)`. -/
theorem c2_amended_output_region {α : Type} (rate dur : ℚ) (bl ps : ℕ)
    (recv : ℕ → ℕ → α) (st0 : PipeState α) (hbl : 0 < bl) :
    num_samps rate dur bl = num_recv_buffers rate dur bl * bl
    ∧ num_samps_min rate dur ≤ num_samps rate dur bl
    ∧ num_samps rate dur bl < num_samps_min rate dur + bl
    ∧ num_samps rate dur bl / bl = num_recv_buffers rate dur bl
    ∧ (∀ i, i < num_recv_buffers rate dur bl → ∀ j, j < bl →
        (clean_run ps bl recv st0 (num_samps rate dur bl / bl)).samples
            (i * bl + j) = recv i j) :=
  ⟨num_samps_eq_mul rate dur bl,
    (num_samps_bounds rate dur bl hbl).1,
    (num_samps_bounds rate dur bl hbl).2,
    num_samps_div rate dur bl hbl,
    fun i hi j hj => by
      rw [num_samps_div rate dur bl hbl]
      exact clean_run_samples ps bl recv st0 (num_recv_buffers rate dur bl) i j hi hj⟩

/-- C2 amended witness: the amended theorem at `sample_rate = 1000`,
`duration = 1`, `buffer_length = 100`, `pool_size = 4`, with cycle `i`'s
buffer holding value `i * 1000 + j` at offset `j`. -/
theorem c2_amended_witness :
    (0 : ℕ) < 100
    ∧ (num_samps 1000 1 100 = num_recv_buffers 1000 1 100 * 100
      ∧ num_samps_min 1000 1 ≤ num_samps 1000 1 100
      ∧ num_samps 1000 1 100 < num_samps_min 1000 1 + 100
      ∧ num_samps 1000 1 100 / 100 = num_recv_buffers 1000 1 100
      ∧ (∀ i, i < num_recv_buffers 1000 1 100 → ∀ j, j < 100 →
          (clean_run 4 100 (fun i j => i * 1000 + j)
              (⟨fun _ _ => 0, fun _ => 0⟩ : PipeState ℕ)
              (num_samps 1000 1 100 / 100)).samples (i * 100 + j)
            = i * 1000 + j)) :=
  ⟨by norm_num,
    c2_amended_output_region 1000 1 100 4 (fun i j => i * 1000 + j)
      ⟨fun _ _ => 0, fun _ => 0⟩ (by norm_num)⟩

/-- C3: starting from the initial accountant state, processing the scripted
status sequence `[none, overflow at t = 10, none at t = 13]` at a sample
rate of 1000 samples/second adds exactly `(13 - 10) * 1000 = 3000` to
`num_rx_dropped` and leaves `had_an_overflow` false afterward. -/
theorem c3_overflow_accounting :
    (process_all 1000 acc_init
        [⟨RXErrorCode.none, 0, false⟩, ⟨RXErrorCode.overflow, 10, false⟩,
          ⟨RXErrorCode.none, 13, false⟩]).num_rx_dropped = 3000
    ∧ (process_all 1000 acc_init
        [⟨RXErrorCode.none, 0, false⟩, ⟨RXErrorCode.overflow, 10, false⟩,
          ⟨RXErrorCode.none, 13, false⟩]).had_an_overflow = false := by
  have hticks : time_spec_to_ticks ((13 : ℚ) - 10) 1000 = 3000 := by
    unfold time_spec_to_ticks
    rw [round_eq, Int.floor_eq_iff]
    norm_num
  refine ⟨?_, ?_⟩ <;>
    simp [process_all, process_metadata, acc_init, hticks]

/-- C4 counterexample: with an overflow episode already in progress
(`had_an_overflow = true`, `last_overflow = 5`), a further overflow status
at time 10 overwrites the stored timestamp — `last_overflow` becomes 10,
not the episode-start value 5 — refuting the claim that overflows arriving
while the flag is set leave the stored timestamp unchanged. -/
theorem c4_last_overflow_overwritten :
    (process_metadata 1000 ⟨true, 5, 0, 0, 0, 0, 0⟩
        ⟨RXErrorCode.overflow, 10, false⟩).1.last_overflow = 10
    ∧ ((10 : ℚ) ≠ 5) := by
  refine ⟨?_, by norm_num⟩
  simp [process_metadata]

/-- C4 amended: every call of `process_metadata` with an overflow status,
whether or not `had_an_overflow` is already set, stores a value copy of the
status's timestamp — so `last_overflow` holds the timestamp of the most
recent overflow of the current episode, not the first — and sets
`had_an_overflow`. -/
theorem c4_amended_overflow_stores_timestamp (rate : ℚ) (st : AccState)
    (md : RXMetadata) (h : md.error_code = RXErrorCode.overflow) :
    (process_metadata rate st md).1.last_overflow = md.time_spec
    ∧ (process_metadata rate st md).1.had_an_overflow = true := by
  rcases md with ⟨ec, t, oos⟩
  cases h
  cases oos <;> simp [process_metadata]

/-- C4 amended witness: the amended theorem at the concrete state of the
counterexample (episode in progress since t = 5, overflow at t = 10). -/
theorem c4_amended_witness :
    (⟨RXErrorCode.overflow, (10 : ℚ), false⟩ : RXMetadata).error_code
        = RXErrorCode.overflow
    ∧ ((process_metadata 1000 ⟨true, 5, 0, 0, 0, 0, 0⟩
          ⟨RXErrorCode.overflow, 10, false⟩).1.last_overflow
        = (⟨RXErrorCode.overflow, (10 : ℚ), false⟩ : RXMetadata).time_spec
      ∧ (process_metadata 1000 ⟨true, 5, 0, 0, 0, 0, 0⟩
          ⟨RXErrorCode.overflow, 10, false⟩).1.had_an_overflow = true) :=
  ⟨rfl, c4_amended_overflow_stores_timestamp 1000 ⟨true, 5, 0, 0, 0, 0, 0⟩
      ⟨RXErrorCode.overflow, 10, false⟩ rfl⟩

/-- C5 counterexample: for the permission-failure input where neither the
real-time scheduler switch nor `seteuid(0)` is permitted (effective UID
1000), module startup prints the scheduler `PermissionError` but then
terminates at the root check (`exit(...)`, lines 55-58) instead of
proceeding with acquisition. -/
theorem c5_nonroot_startup_exits :
    module_startup false false 1000
      = ⟨true, true, StartupOutcome.exits⟩ := by
  rfl

/-- C5 amended: a permission failure of the real-time scheduler probe is
reported (printed) and by itself never terminates startup; however the
program proceeds to acquisition if and only if it obtains root (either
`seteuid(0)` succeeds or the effective UID is already 0), and exits
otherwise, regardless of the scheduler probe's outcome. -/
theorem c5_amended_startup (can_set_rt can_seteuid : Bool) (euid : ℕ) :
    (module_startup can_set_rt can_seteuid euid).sched_error_printed
        = !can_set_rt
    ∧ ((module_startup can_set_rt can_seteuid euid).outcome
          = StartupOutcome.proceeds ↔ (can_seteuid = true ∨ euid = 0)) := by
  cases can_seteuid <;> by_cases he : euid = 0 <;>
    simp [module_startup, he]

/-- C6 counterexample: an external stop request (the `KeyboardInterrupt`
handler clears `writer_running`) makes the writer exit after its current
entry even though entry `(1, 1)` was enqueued before the sentinel: with the
flag cleared from iteration 1 onward, only `(0, 0)` is written and `(1, 1)`
is silently discarded. -/
theorem c6_external_stop_discards_entries :
    (rx_queue_writer (fun k => decide (k < 1))
        [(0, 0), (1, 1), (-1, -1)]).written = [(0, 0)]
    ∧ ((1, 1) : ℤ × ℤ) ∉ (rx_queue_writer (fun k => decide (k < 1))
        [(0, 0), (1, 1), (-1, -1)]).written := by
  decide

/-- C6 amended: entries enqueued before the sentinel reach the output
region only while `writer_running` stays set: if the flag is cleared from
iteration `stop` onward, exactly the first `stop` entries are written (in
particular, on the normal-completion path, where the flag is never cleared
before the join, `stop ≥ length` and every entry is written), the
remaining queued entries are discarded, and the final flush still runs. -/
theorem c6_amended_drain_up_to_stop (entries : List (ℤ × ℤ)) (stop : ℕ)
    (h : ∀ e ∈ entries, 0 ≤ e.1) :
    (rx_queue_writer (fun k => decide (k < stop))
        (entries ++ [(-1, -1)])).written = entries.take stop
    ∧ (rx_queue_writer (fun k => decide (k < stop))
        (entries ++ [(-1, -1)])).flushed = true := by
  refine ⟨?_, rfl⟩
  show writer_drain (fun k => decide (k < stop)) 0 (entries ++ [(-1, -1)])
      = entries.take stop
  rw [writer_drain_cleared stop entries 0 h, Nat.sub_zero]

/-- C6 amended witness: the amended theorem with two entries and the flag
cleared after one iteration: only the first entry is written. -/
theorem c6_amended_witness :
    (∀ e ∈ ([(0, 0), (1, 1)] : List (ℤ × ℤ)), 0 ≤ e.1)
    ∧ ((rx_queue_writer (fun k => decide (k < 1))
          (([(0, 0), (1, 1)] : List (ℤ × ℤ)) ++ [(-1, -1)])).written
        = ([(0, 0), (1, 1)] : List (ℤ × ℤ)).take 1
      ∧ (rx_queue_writer (fun k => decide (k < 1))
          (([(0, 0), (1, 1)] : List (ℤ × ℤ)) ++ [(-1, -1)])).flushed = true) :=
  ⟨by decide, c6_amended_drain_up_to_stop [(0, 0), (1, 1)] 1 (by decide)⟩

/-- C7: for every queue history whose last enqueued entry is the sentinel
(negative absolute index), if `writer_running` stays set, the writer
processes every entry enqueued before the sentinel in order, stops at the
sentinel without writing anything further, and performs the final flush of
the output region before returning. -/
theorem c7_sentinel_correctness (flags : ℕ → Bool) (entries : List (ℤ × ℤ))
    (hflags : ∀ k, flags k = true) (h : ∀ e ∈ entries, 0 ≤ e.1) :
    (rx_queue_writer flags (entries ++ [(-1, -1)])).written = entries
    ∧ (rx_queue_writer flags (entries ++ [(-1, -1)])).flushed = true :=
  ⟨writer_drain_flags_true flags hflags entries 0 h, rfl⟩

/-- C7 witness: the sentinel theorem with two concrete entries and the flag
constantly set. -/
theorem c7_sentinel_witness :
    (∀ k : ℕ, (fun _ : ℕ => true) k = true)
    ∧ (∀ e ∈ ([(0, 0), (1, 1)] : List (ℤ × ℤ)), 0 ≤ e.1)
    ∧ ((rx_queue_writer (fun _ => true)
          (([(0, 0), (1, 1)] : List (ℤ × ℤ)) ++ [(-1, -1)])).written
        = ([(0, 0), (1, 1)] : List (ℤ × ℤ))
      ∧ (rx_queue_writer (fun _ => true)
          (([(0, 0), (1, 1)] : List (ℤ × ℤ)) ++ [(-1, -1)])).flushed = true) :=
  ⟨fun _ => rfl, by decide,
    c7_sentinel_correctness (fun _ => true) [(0, 0), (1, 1)]
      (fun _ => rfl) (by decide)⟩

/-- C8 (code bug): a `late` status first increments `num_rx_late`, but the
call then raises `NameError` instead of returning normally: line 190
evaluates the global `INIT_DELAY`, which no statement of the module
defines.  Evaluation at the failing input: `late` at time 0 from the
initial accountant state. -/
theorem c8_late_raises_name_error :
    (process_metadata 1000 acc_init ⟨RXErrorCode.late, 0, false⟩).2
        = Option.some PyError.nameError
    ∧ (process_metadata 1000 acc_init
        ⟨RXErrorCode.late, 0, false⟩).1.num_rx_late = 1
    ∧ INIT_DELAY = Option.none := by
  refine ⟨?_, ?_, rfl⟩ <;> simp [process_metadata, acc_init, INIT_DELAY]

/-- C9 counterexample: with `get_rx_rate() = 1000` and
`len_recv_buffer = 300`, `rx_queue_size = int(1000 / 300) = 3`, and
`3 * 300 = 900 < 1000`: the pool holds less than one second of buffers,
refuting `pool_size * buffer_length ≥ sample_rate`. -/
theorem c9_pool_smaller_than_one_second :
    rx_queue_size 1000 300 = 3 ∧ rx_queue_size 1000 300 * 300 < 1000 := by
  have hfloor : ⌊(1000 : ℚ) / ((300 : ℕ) : ℚ)⌋ = 3 := by
    rw [show (((300 : ℕ) : ℚ)) = 300 by norm_num]
    rw [Int.floor_eq_iff]
    norm_num
  have h : rx_queue_size 1000 300 = 3 := by
    unfold rx_queue_size int_trunc
    rw [if_pos (by positivity), hfloor]
    rfl
  exact ⟨h, by rw [h]; norm_num⟩

/-- C9 amended: `rx_queue_size = int(rate / buffer_length)` truncates, so
the pool holds at most one second of buffers (and misses one second by
less than one buffer): `pool_size * buffer_length ≤ sample_rate <
(pool_size + 1) * buffer_length`. -/
theorem c9_amended_pool_at_most_one_second (rate : ℚ) (bl : ℕ)
    (hr : 0 ≤ rate) (hbl : 0 < bl) :
    ((rx_queue_size rate bl : ℕ) : ℚ) * (bl : ℚ) ≤ rate
    ∧ rate < (((rx_queue_size rate bl : ℕ) : ℚ) + 1) * (bl : ℚ) := by
  have hblq : (0 : ℚ) < (bl : ℚ) := by exact_mod_cast hbl
  have hq0 : (0 : ℚ) ≤ rate / (bl : ℚ) := div_nonneg hr hblq.le
  have hfl : 0 ≤ ⌊rate / (bl : ℚ)⌋ := Int.floor_nonneg.mpr hq0
  have hrq : rx_queue_size rate bl = (⌊rate / (bl : ℚ)⌋).toNat := by
    unfold rx_queue_size int_trunc
    rw [if_pos hq0]
  have hcast : ((rx_queue_size rate bl : ℕ) : ℚ)
      = ((⌊rate / (bl : ℚ)⌋ : ℤ) : ℚ) := by
    rw [hrq]
    exact_mod_cast congrArg (fun z : ℤ => (z : ℚ)) (Int.toNat_of_nonneg hfl)
  constructor
  · rw [hcast]
    have h1 : ((⌊rate / (bl : ℚ)⌋ : ℤ) : ℚ) ≤ rate / (bl : ℚ) := Int.floor_le _
    have h2 := mul_le_mul_of_nonneg_right h1 hblq.le
    rwa [div_mul_cancel₀ _ (ne_of_gt hblq)] at h2
  · rw [hcast]
    have h1 : rate / (bl : ℚ) < ((⌊rate / (bl : ℚ)⌋ : ℤ) : ℚ) + 1 :=
      Int.lt_floor_add_one _
    have h2 := mul_lt_mul_of_pos_right h1 hblq
    rwa [div_mul_cancel₀ _ (ne_of_gt hblq)] at h2

/-- C9 amended witness: the amended bounds at rate 1000 and buffer length
300: `3 * 300 = 900 ≤ 1000 < 1200 = 4 * 300`. -/
theorem c9_amended_witness :
    (0 : ℚ) ≤ 1000 ∧ (0 : ℕ) < 300
    ∧ (((rx_queue_size 1000 300 : ℕ) : ℚ) * ((300 : ℕ) : ℚ) ≤ 1000
      ∧ (1000 : ℚ) < (((rx_queue_size 1000 300 : ℕ) : ℚ) + 1) * ((300 : ℕ) : ℚ)) :=
  ⟨by norm_num, by norm_num,
    c9_amended_pool_at_most_one_second 1000 300 (by norm_num) (by norm_num)⟩

/-- C10: when the accountant closes an overflow episode (`none` status
while `had_an_overflow`), the dropped-sample increment is computed from the
rate queried at the start of the closing call (`rate_clear`) applied to the
whole elapsed interval; the rate passed to the call that opened the episode
(`rate_ovf`) does not appear in the result. -/
theorem c10_rate_queried_at_reset (rate_ovf rate_clear t_ovf t_clear : ℚ)
    (st : AccState) :
    ((process_metadata rate_clear
        (process_metadata rate_ovf st ⟨RXErrorCode.overflow, t_ovf, false⟩).1
        ⟨RXErrorCode.none, t_clear, false⟩).1).num_rx_dropped
      = st.num_rx_dropped + time_spec_to_ticks (t_clear - t_ovf) rate_clear := by
  simp [process_metadata]

end USRP
